import Mathlib

/-!
Verification model of the mcp-memory-bank chunking-and-retrieval subsystem.

JavaScript strings are modelled as `List Char` (`JStr`); for the ASCII inputs
used throughout, JS `.length`/`.substring` (UTF-16 code units) agree with the
character count.  JS `Array`/`String` operations that Lean implements by
well-founded recursion are re-implemented here structurally (fuel-bounded)
so that all definitions evaluate inside the kernel; each fuel bound is an
upper bound on the number of iterations the JS loop performs.
-/

set_option maxRecDepth 100000

namespace MemoryBank

/-- A JavaScript string, modelled as its list of characters. -/
abbrev JStr := List Char

/-- The tokenizer handle (`PreTrainedTokenizer` from `@xenova/transformers`):
an external collaborator, abstracted to its `encode`/`decode` contract. -/
structure Tokenizer where
  encode : JStr → List Nat
  decode : List Nat → JStr

/-- `TextSplitterOptions` from `EmbeddingService`. -/
structure TextSplitterOptions where
  chunkSize : Nat
  chunkOverlap : Nat

/-- JS `String.prototype.trim`, used in `currentChunk.trim().length > 0`. -/
def trimJs (s : JStr) : JStr :=
  ((s.dropWhile Char.isWhitespace).reverse.dropWhile Char.isWhitespace).reverse

/-- Worker for `splitJs`.  The fuel decreases by one per consumed character
block, so `s.length + 1` unfoldings always reach the end of the string when
the separator is nonempty (each step consumes at least one character). -/
def splitGo (sep : JStr) : Nat → JStr → JStr → List JStr
  | 0, s, acc => [acc.reverse ++ s]
  | fuel + 1, s, acc =>
    match s with
    | [] => [acc.reverse]
    | c :: rest =>
      if sep.isPrefixOf (c :: rest) then
        acc.reverse :: splitGo sep fuel ((c :: rest).drop sep.length) []
      else
        splitGo sep fuel rest (c :: acc)

/-- JS `text.split(separator)` for a nonempty separator: cut at each
leftmost non-overlapping occurrence, keeping empty segments.  (The source
only calls this with a nonempty separator; the empty separator is handled
by the base case of `_splitTextWithTokenizer` before any split.) -/
def splitJs (s sep : JStr) : List JStr := splitGo sep (s.length + 1) s []

/-- The terminal token-window loop of `_splitTextWithTokenizer`
(`for (let i = 0; i < tokenIds.length; i += chunkSize - chunkOverlap)`),
with the window `tokenIds.slice(i, i + chunkSize)` pushed when nonempty.
The JS loop increments `i` by `chunkSize - chunkOverlap` with no minimum
step, so it never terminates when that step is ≤ 0 and `tokenIds` is
nonempty; this total model burns one unit of fuel per iteration and the
callers pass fuel `tokenIds.length`, enough for every terminating (step ≥ 1)
run.  The non-terminating step ≤ 0 behaviour is modelled by `windowStep`. -/
def windowGo (tokenIds : List Nat) (chunkSize step : Nat) : Nat → Nat → List (List Nat)
  | 0, _ => []
  | fuel + 1, i =>
    if i < tokenIds.length then
      let w := (tokenIds.drop i).take chunkSize
      if 0 < w.length then w :: windowGo tokenIds chunkSize step fuel (i + step)
      else windowGo tokenIds chunkSize step fuel (i + step)
    else []

/-- The emitted windows of the terminal (empty-separator) case. -/
def windowChunks (tokenIds : List Nat) (chunkSize chunkOverlap : Nat) : List (List Nat) :=
  windowGo tokenIds chunkSize (chunkSize - chunkOverlap) tokenIds.length 0

/-- The index increment of the terminal token-window loop
(`i += chunkSize - chunkOverlap`), in JS signed arithmetic. -/
def windowStep (chunkSize chunkOverlap : Int) : Int := chunkSize - chunkOverlap

/-- The segment-accumulation loop of `_splitTextWithTokenizer` (the
`for (let i = 0; i < splits.length; i++)` loop, with the trailing
`if (currentChunk.trim().length > 0) finalChunks.push(currentChunk)`).
`recur` is the recursive call with the next-finer separators.  State:
remaining splits, whether the next split is the first one (`i === 0`),
`currentChunk`, `currentChunkTokens`, `finalChunks`. -/
def splitLoop (tok : Tokenizer) (opts : TextSplitterOptions) (sep : JStr)
    (recur : JStr → List JStr) :
    List JStr → Bool → JStr → Nat → List JStr → List JStr
  | [], _, currentChunk, _, finalChunks =>
    if 0 < (trimJs currentChunk).length then finalChunks ++ [currentChunk] else finalChunks
  | split :: splits, isFirst, currentChunk, currentChunkTokens, finalChunks =>
    let splitWithSeparator := if isFirst then split else sep ++ split
    let splitTokens := (tok.encode splitWithSeparator).length
    if opts.chunkSize < splitTokens then
      -- single split too large: recurse with finer separators; note the
      -- accumulated currentChunk is reset without being emitted (source
      -- lines: `finalChunks.push(...subChunks); currentChunk = "";`)
      splitLoop tok opts sep recur splits false [] 0 (finalChunks ++ recur split)
    else if currentChunkTokens + splitTokens ≤ opts.chunkSize then
      splitLoop tok opts sep recur splits false (currentChunk ++ splitWithSeparator)
        (currentChunkTokens + splitTokens) finalChunks
    else
      let closed :=
        if 0 < (trimJs currentChunk).length then finalChunks ++ [currentChunk] else finalChunks
      let overlapStartIndex := currentChunk.length - 4 * opts.chunkOverlap
      let overlapText := currentChunk.drop overlapStartIndex
      let newChunk := overlapText ++ splitWithSeparator
      let newChunkTokens := (tok.encode newChunk).length
      if opts.chunkSize < newChunkTokens then
        splitLoop tok opts sep recur splits false [] 0 (closed ++ recur splitWithSeparator)
      else
        splitLoop tok opts sep recur splits false newChunk newChunkTokens closed

/-- `EmbeddingService._splitTextWithTokenizer`, by recursion on the
separator list.  The `[]` case is unreachable from `chunkText`'s separator
list (the empty separator is last and never recurses); JS behaviour there
would depend on `split(undefined)`, and we return `[]`. -/
def splitTextSeps (tok : Tokenizer) (opts : TextSplitterOptions) :
    List JStr → JStr → List JStr
  | [], _ => []
  | sep :: rest, text =>
    if sep.isEmpty then
      if text.length = 0 then []
      else (windowChunks (tok.encode text) opts.chunkSize opts.chunkOverlap).map tok.decode
    else
      splitLoop tok opts sep (fun t => splitTextSeps tok opts rest t)
        (splitJs text sep) true [] 0 []

/-- The prioritized separator list of `_splitTextWithTokenizer`. -/
def defaultSeparators : List JStr :=
  ["\n\n".toList, "\n".toList, ". ".toList, "? ".toList, "! ".toList, " ".toList, []]

/-- `EmbeddingService.chunkText`: chunk with `chunkSize = 450`,
`chunkOverlap = 50` over the default separators. -/
def chunkTextModel (tok : Tokenizer) (content : JStr) : List JStr :=
  splitTextSeps tok ⟨450, 50⟩ defaultSeparators content

/-- A concrete tokenizer satisfying the Tokenizer Adapter contract
(deterministic `encode`, `decode` its exact inverse): one token per
character. -/
def charTok : Tokenizer :=
  ⟨fun s => s.map Char.toNat, fun ids => ids.map Char.ofNat⟩

/-! ## Services layer

`MemoryBankService`, `DatabaseService` and `SearchService`.  The ChromaDB
collection is modelled as a list of stored chunk records; ChromaDB itself is
the spec's external Chunk Store collaborator, so its query operations
(`get` with a `where` filter and `limit`, nearest-neighbour `query`,
`delete`) are modelled from the spec's Chunk Store query contract, while
everything the repository's own code does with the results is modelled from
that code.  Timestamps are irrelevant to every claim and are omitted. -/

/-- A persisted chunk record (`chunks` collection entry). -/
structure StoredChunk where
  projectId : String
  fileName : String
  chunkIndex : Nat
  text : JStr
  vector : List Int
  deriving DecidableEq

/-- The persistent state: the `projects` collection (just the ids, which is
all any claim consults) and the `chunks` collection in insertion order. -/
structure Store where
  projects : List String
  chunks : List StoredChunk
  deriving DecidableEq

/-- `McpError` codes used by the services (`ErrorCode` from the MCP SDK):
the code raises `InvalidParams` for malformed arguments and for the
not-found conditions, and `InternalError` for dependency failures. -/
inductive ErrCode
  | invalidParams
  | internalError
  deriving DecidableEq

/-- An `McpError`: code plus message. -/
structure McpErr where
  code : ErrCode
  msg : String
  deriving DecidableEq

/-- A mutation executed against the store, in execution order. -/
inductive DbOp
  | deleteFileChunks (projectId fileName : String)
  | insertChunk (projectId fileName : String) (chunkIndex : Nat) (text : JStr)
      (vector : List Int)
  deriving DecidableEq

/-- Effect of `DatabaseService.deleteMemoryBankContentByFile`: remove every
chunk whose metadata matches both the project id and the file name. -/
def deleteFileChunksFn (st : Store) (pid fn : String) : Store :=
  { st with chunks := st.chunks.filter fun c => !(c.projectId == pid && c.fileName == fn) }

/-- Apply one store mutation. -/
def applyOp (st : Store) : DbOp → Store
  | .deleteFileChunks pid fn => deleteFileChunksFn st pid fn
  | .insertChunk pid fn idx text vec => { st with chunks := st.chunks ++ [⟨pid, fn, idx, text, vec⟩] }

/-- Apply a trace of store mutations in order. -/
def applyOps (st : Store) (ops : List DbOp) : Store := ops.foldl applyOp st

/-- `List.mapM` over `Except`, written out so it evaluates structurally:
the semantics of `Promise.all` over the per-chunk embedding calls (the
whole batch fails if any call fails, and nothing else observes the
partial results). -/
def mapEmbed (embed : JStr → Except String (List Int)) : List JStr → Except String (List (List Int))
  | [] => .ok []
  | c :: cs =>
    match embed c with
    | .error e => .error e
    | .ok v =>
      match mapEmbed embed cs with
      | .error e => .error e
      | .ok vs => .ok (v :: vs)

/-- Pair each chunk with its index, as `chunks.map((chunkText, i) => ...)`. -/
def insertOps (pid fn : String) : Nat → List (JStr × List Int) → List DbOp
  | _, [] => []
  | i, (t, v) :: rest => .insertChunk pid fn i t v :: insertOps pid fn (i + 1) rest

/-- `MemoryBankService.updateFileContent`, parameterized by the chunker and
the (fallible) embedder.  Returns the trace of store mutations actually
executed before returning or throwing, and the outcome (`none` = success).
The final store is `applyOps st trace`; an error with an empty trace means
the stored chunks are untouched.  Mirrors the source order: project check,
`!fileName || !content` check, chunk, zero-chunk early exit (clear file),
embed the whole batch, then delete-existing and insert-new. -/
def updateFileContent (chunkFn : JStr → List JStr) (embed : JStr → Except String (List Int))
    (st : Store) (pid fn : String) (content : JStr) : List DbOp × Option McpErr :=
  if pid ∉ st.projects then
    ([], some ⟨.invalidParams, "Project with ID '" ++ pid ++ "' not found."⟩)
  else if fn = "" ∨ content = [] then
    ([], some ⟨.invalidParams, "File name and content cannot be empty."⟩)
  else
    let chunks := chunkFn content
    if chunks = [] then
      ([.deleteFileChunks pid fn], none)
    else
      match mapEmbed embed chunks with
      | .error e => ([], some ⟨.internalError, "Embedding generation failed: " ++ e⟩)
      | .ok embeddings =>
        (.deleteFileChunks pid fn :: insertOps pid fn 0 (chunks.zip embeddings), none)

/-- `DatabaseService.getMemoryBankChunksByFile`: fetch the `(project, file)`
chunks and sort them by `chunk_index` ascending
(`chunks.sort((a, b) => a.chunkIndex - b.chunkIndex)`). -/
def getMemoryBankChunksByFile (st : Store) (pid fn : String) : List StoredChunk :=
  List.insertionSort (fun a b : StoredChunk => a.chunkIndex ≤ b.chunkIndex)
    (st.chunks.filter fun c => c.projectId == pid && c.fileName == fn)

/-- `MemoryBankService.getFileContent`: project check, fetch ordered chunks,
not-found (`InvalidParams`) on zero chunks, else concatenate the texts with
no separator (`.map(chunk => chunk.chunkText).join('')`). -/
def getFileContent (st : Store) (pid fn : String) : Except McpErr JStr :=
  if pid ∉ st.projects then
    .error ⟨.invalidParams, "Project with ID '" ++ pid ++ "' not found."⟩
  else
    let chunks := getMemoryBankChunksByFile st pid fn
    if chunks = [] then
      .error ⟨.invalidParams,
        "No content found for file '" ++ fn ++ "' in project '" ++ pid ++ "'."⟩
    else
      .ok ((chunks.map (fun c => c.text)).foldl (· ++ ·) [])

/-! ## Search -/

/-- The `SearchResult` shape `{text, fileName, chunkIndex, score}`; `score`
is the ChromaDB distance for semantic hits and `null` (`none`) for keyword
hits.  Distances are modelled as exact rationals (the ordering behaviour,
not float arithmetic, is what the claims are about). -/
structure SearchResult where
  text : JStr
  fileName : String
  chunkIndex : Nat
  score : Option ℚ
  deriving DecidableEq

/-- `fileFilter` handling shared by both search paths: the filter applies
only when present and nonempty (`if (fileFilter && fileFilter.length > 0)`). -/
def matchesFilter (fileFilter : Option (List String)) (fn : String) : Bool :=
  match fileFilter with
  | none => true
  | some l => if l.isEmpty then true else l.contains fn

/-- Modelled from the spec: the Chunk Store's nearest-neighbour query
(ChromaDB `chunksCollection.query` with `nResults: topK` and the
project/file `where` filter) — "nearest-neighbor query over vectors
returning distances" — returns the `topK` candidates with the smallest
distances.  `dist c` is the distance the store reports between the query
embedding and chunk `c`.  The mapping of each hit to a result with
`score := distances[index]` (the raw distance) is from
`DatabaseService.semanticSearchChunks`. -/
def semanticSearchChunks (st : Store) (dist : StoredChunk → ℚ) (pid : String)
    (topK : Nat) (fileFilter : Option (List String)) : List SearchResult :=
  let cands := st.chunks.filter fun c => c.projectId == pid && matchesFilter fileFilter c.fileName
  let nearest := (List.insertionSort (fun a b : StoredChunk => dist a ≤ dist b) cands).take topK
  nearest.map fun c => ⟨c.text, c.fileName, c.chunkIndex, some (dist c)⟩

/-- JS `hay.includes(needle)`: substring containment, `true` for the empty
needle. -/
def hasInfix (hay needle : JStr) : Bool :=
  match hay with
  | [] => needle.isEmpty
  | _ :: t => needle.isPrefixOf hay || hasInfix t needle

/-- JS `doc.toLowerCase().includes(lowerCaseQuery)` (ASCII case folding):
case-insensitive substring containment. -/
def containsInsensitive (text query : JStr) : Bool :=
  hasInfix (text.map Char.toLower) (query.map Char.toLower)

/-- The name ordering used by the keyword-search comparator: JS
`a.fileName.localeCompare(b.fileName)`, modelled as code-point
lexicographic order (they agree on the ASCII names used here). -/
def lexLt : List Char → List Char → Bool
  | _, [] => false
  | [], _ :: _ => true
  | a :: as, b :: bs => if a < b then true else if b < a then false else lexLt as bs

/-- The keyword result ordering (`if (a.fileName !== b.fileName) return
a.fileName.localeCompare(b.fileName); return a.chunkIndex - b.chunkIndex`):
file name ascending, then chunk index ascending. -/
def fileIdxLe (a b : SearchResult) : Prop :=
  lexLt a.fileName.toList b.fileName.toList = true ∨
    (a.fileName = b.fileName ∧ a.chunkIndex ≤ b.chunkIndex)

instance : DecidableRel fileIdxLe := fun a b => by unfold fileIdxLe; infer_instance

/-- `DatabaseService.keywordSearchChunks`: fetch up to 100 candidate chunks
for the project (and optional file filter), keep the case-insensitive
substring matches with `score: null`, sort by `(fileName, chunkIndex)`,
and truncate to `topK`. -/
def keywordSearchChunks (st : Store) (pid : String) (query : JStr) (topK : Nat)
    (fileFilter : Option (List String)) : List SearchResult :=
  let candidates :=
    (st.chunks.filter fun c => c.projectId == pid && matchesFilter fileFilter c.fileName).take 100
  let matched := candidates.filter fun c => containsInsensitive c.text query
  let results := matched.map fun c => SearchResult.mk c.text c.fileName c.chunkIndex none
  (List.insertionSort fileIdxLe results).take topK

/-- The score ordering used to sort semantic results
(`(a.score ?? Infinity) - (b.score ?? Infinity)`, ascending): a missing
score sorts last. -/
def scoreLeB : Option ℚ → Option ℚ → Bool
  | _, none => true
  | none, some _ => false
  | some qa, some qb => decide (qa ≤ qb)

/-- Score order on results (missing score = `Infinity` sorts last). -/
def scoreLe (a b : SearchResult) : Prop := scoreLeB a.score b.score = true

instance : DecidableRel scoreLe := fun a b => by unfold scoreLe; infer_instance

/-- External operations the search path performs, in order: the project
existence lookup, the query embedding, and a chunk-store query. -/
inductive ExtOp
  | projectLookup (pid : String)
  | embedQuery (query : JStr)
  | chunkQuery
  deriving DecidableEq

/-- `SearchService.search`: project existence check first, then the
defensive `!query || !searchType || !topK` check, then the mode dispatch;
semantic results are re-sorted by ascending score, keyword results are
returned in the store layer's order.  Returns the trace of external
operations executed and the outcome. -/
def searchService (st : Store) (dist : StoredChunk → ℚ) (pid : String) (query : JStr)
    (searchType : String) (topK : Nat) (fileFilter : Option (List String)) :
    List ExtOp × Except McpErr (List SearchResult) :=
  if pid ∉ st.projects then
    ([.projectLookup pid], .error ⟨.invalidParams, "Project with ID '" ++ pid ++ "' not found."⟩)
  else if query = [] ∨ searchType = "" ∨ topK = 0 then
    ([.projectLookup pid], .error ⟨.invalidParams, "Missing required search parameters."⟩)
  else if searchType = "semantic" then
    ([.projectLookup pid, .embedQuery query, .chunkQuery],
      .ok (List.insertionSort scoreLe (semanticSearchChunks st dist pid topK fileFilter)))
  else if searchType = "keyword" then
    ([.projectLookup pid, .chunkQuery],
      .ok (keywordSearchChunks st pid query topK fileFilter))
  else
    ([.projectLookup pid], .error ⟨.invalidParams, "Invalid search type: " ++ searchType⟩)

/-- The Zod schema `TOOL_PARAMS_SEARCH` on the fields the claims are about:
`query: z.string().trim().min(1)`, `searchType: z.enum(['semantic',
'keyword'])`, `topK: z.number().int().min(1).max(20)`.  (The `projectId`
UUID-format check and the `fileFilter` name pattern are not consulted by
any claim and are omitted.) -/
def validSearchArgs (query : JStr) (searchType : String) (topK : Int) : Bool :=
  !(trimJs query).isEmpty && (searchType == "semantic" || searchType == "keyword") &&
    1 ≤ topK && topK ≤ 20

/-- The `memoryBank_search` tool boundary: Zod validation runs before the
handler, so invalid arguments are rejected before `SearchService.search`
(and hence before any store or embedder call) runs. -/
def searchTool (st : Store) (dist : StoredChunk → ℚ) (pid : String) (query : JStr)
    (searchType : String) (topK : Int) (fileFilter : Option (List String)) :
    List ExtOp × Except McpErr (List SearchResult) :=
  if validSearchArgs query searchType topK then
    searchService st dist pid query searchType topK.toNat fileFilter
  else
    ([], .error ⟨.invalidParams, "Invalid arguments."⟩)

/-- A document whose chunking crosses into the oversized-segment recursion
while a nonempty chunk is being accumulated: a short paragraph `"A"`
followed (after the `"\n\n"` paragraph break) by a 451-token single-line
paragraph. -/
def lossDoc : JStr := 'A' :: '\n' :: '\n' :: List.replicate 451 'B'

/-- A whitespace-only document long enough (451 tokens under `charTok`,
with no space or newline to split at) to force the chunker into the
terminal token-window case. -/
def wsDoc : JStr := List.replicate 451 '\t'

/-- The keyword-search example of the spec: chunks
`fileA.md#2 "no match"`, `fileA.md#0 "hello world"`, `fileB.md#0 "hello"`
in store order. -/
def exKwStore : Store :=
  ⟨["p"],
    [⟨"p", "fileA.md", 2, "no match".toList, []⟩,
      ⟨"p", "fileA.md", 0, "hello world".toList, []⟩,
      ⟨"p", "fileB.md", 0, "hello".toList, []⟩]⟩

/-- Five stored chunks for the semantic-search example. -/
def exSemStore : Store :=
  ⟨["p"],
    [⟨"p", "f.md", 0, "c0".toList, []⟩, ⟨"p", "f.md", 1, "c1".toList, []⟩,
      ⟨"p", "f.md", 2, "c2".toList, []⟩, ⟨"p", "f.md", 3, "c3".toList, []⟩,
      ⟨"p", "f.md", 4, "c4".toList, []⟩]⟩

/-- The distances the store reports for `exSemStore`'s five chunks:
`[0.1, 0.9, 0.3, 0.05, 0.5]` (as exact rationals). -/
def exDist : StoredChunk → ℚ := fun c =>
  if c.chunkIndex = 0 then mkRat 1 10
  else if c.chunkIndex = 1 then mkRat 9 10
  else if c.chunkIndex = 2 then mkRat 3 10
  else if c.chunkIndex = 3 then mkRat 1 20
  else mkRat 1 2

/-! ## Helper lemmas -/

/-- `lexLt` is transitive. -/
theorem lexLt_trans :
    ∀ {a b c : List Char}, lexLt a b = true → lexLt b c = true → lexLt a c = true := by
  intro a
  induction a with
  | nil =>
    intro b c h1 h2
    cases c with
    | nil => cases b <;> simp [lexLt] at h1 h2
    | cons z zs => simp [lexLt]
  | cons x xs ih =>
    intro b c h1 h2
    cases b with
    | nil => simp [lexLt] at h1
    | cons y ys =>
      cases c with
      | nil => simp [lexLt] at h2
      | cons z zs =>
        simp only [lexLt] at h1 h2 ⊢
        rcases lt_trichotomy x y with hxy | hxy | hxy
        · rcases lt_trichotomy y z with hyz | hyz | hyz
          · simp [lt_trans hxy hyz]
          · subst hyz; simp [hxy]
          · rw [if_neg (lt_asymm hyz), if_pos hyz] at h2; exact absurd h2 (by simp)
        · subst hxy
          rcases lt_trichotomy x z with hyz | hyz | hyz
          · simp [hyz]
          · subst hyz
            rw [if_neg (lt_irrefl x)] at h1 h2 ⊢
            rw [if_neg (lt_irrefl x)] at h1 h2 ⊢
            exact ih h1 h2
          · rw [if_neg (lt_asymm hyz), if_pos hyz] at h2; exact absurd h2 (by simp)
        · rw [if_neg (lt_asymm hxy), if_pos hxy] at h1; exact absurd h1 (by simp)

/-- `lexLt` is trichotomous. -/
theorem lexLt_total :
    ∀ (a b : List Char), lexLt a b = true ∨ a = b ∨ lexLt b a = true := by
  intro a
  induction a with
  | nil =>
    intro b
    cases b with
    | nil => exact Or.inr (Or.inl rfl)
    | cons y ys => exact Or.inl (by simp [lexLt])
  | cons x xs ih =>
    intro b
    cases b with
    | nil => exact Or.inr (Or.inr (by simp [lexLt]))
    | cons y ys =>
      rcases lt_trichotomy x y with hxy | hxy | hxy
      · exact Or.inl (by simp [lexLt, hxy])
      · subst hxy
        rcases ih ys with h | h | h
        · exact Or.inl (by simp [lexLt, lt_irrefl, h])
        · exact Or.inr (Or.inl (by rw [h]))
        · exact Or.inr (Or.inr (by simp [lexLt, lt_irrefl, h]))
      · exact Or.inr (Or.inr (by simp [lexLt, hxy]))

/-- `fileIdxLe` is transitive. -/
theorem fileIdxLe_trans {a b c : SearchResult} (h1 : fileIdxLe a b) (h2 : fileIdxLe b c) :
    fileIdxLe a c := by
  rcases h1 with h1 | ⟨h1, h1'⟩
  · rcases h2 with h2 | ⟨h2, _⟩
    · exact Or.inl (lexLt_trans h1 h2)
    · exact Or.inl (h2 ▸ h1)
  · rcases h2 with h2 | ⟨h2, h2'⟩
    · exact Or.inl (h1 ▸ h2)
    · exact Or.inr ⟨h1.trans h2, h1'.trans h2'⟩

/-- `fileIdxLe` is total. -/
theorem fileIdxLe_total (a b : SearchResult) : fileIdxLe a b ∨ fileIdxLe b a := by
  rcases lexLt_total a.fileName.toList b.fileName.toList with h | h | h
  · exact Or.inl (Or.inl h)
  · have hfn : a.fileName = b.fileName := congrArg String.mk h
    rcases Nat.le_total a.chunkIndex b.chunkIndex with hi | hi
    · exact Or.inl (Or.inr ⟨hfn, hi⟩)
    · exact Or.inr (Or.inr ⟨hfn.symm, hi⟩)
  · exact Or.inr (Or.inl h)

/-- `scoreLe` is transitive. -/
theorem scoreLe_trans {a b c : SearchResult} (h1 : scoreLe a b) (h2 : scoreLe b c) :
    scoreLe a c := by
  unfold scoreLe scoreLeB at *
  rcases ha : a.score with _ | qa <;> rcases hb : b.score with _ | qb <;>
    rcases hc : c.score with _ | qc <;> simp_all
  exact le_trans h1 h2

/-- `scoreLe` is total. -/
theorem scoreLe_total (a b : SearchResult) : scoreLe a b ∨ scoreLe b a := by
  unfold scoreLe scoreLeB
  rcases ha : a.score with _ | qa <;> rcases hb : b.score with _ | qb <;> simp_all
  exact le_total qa qb

/-- If any element of the batch fails to embed, the whole batch fails. -/
theorem mapEmbed_error_of_mem {embed : JStr → Except String (List Int)} :
    ∀ {l : List JStr} {c : JStr} {e : String}, c ∈ l → embed c = .error e →
      ∃ e', mapEmbed embed l = .error e' := by
  intro l
  induction l with
  | nil => intro c e h; exact absurd h (List.not_mem_nil c)
  | cons x xs ih =>
    intro c e hmem hfail
    rcases List.mem_cons.mp hmem with rfl | hmem
    · exact ⟨e, by simp [mapEmbed, hfail]⟩
    · rcases hx : embed x with ex | vx
      · exact ⟨ex, by simp [mapEmbed, hx]⟩
      · rcases ih hmem hfail with ⟨e', he'⟩
        exact ⟨e', by simp [mapEmbed, hx, he']⟩

/-- Every window the terminal loop emits holds at most `chunkSize` tokens. -/
theorem windowGo_mem_length {ids : List Nat} {cs step : Nat} :
    ∀ {fuel i : Nat} {w : List Nat}, w ∈ windowGo ids cs step fuel i → w.length ≤ cs := by
  intro fuel
  induction fuel with
  | zero => intro i w h; exact absurd h (List.not_mem_nil w)
  | succ fuel ih =>
    intro i w h
    simp only [windowGo] at h
    split at h
    · split at h
      · rcases List.mem_cons.mp h with rfl | h
        · exact le_trans (List.length_take_le cs _) (le_refl cs)
        · exact ih h
      · exact ih h
    · exact absurd h (List.not_mem_nil w)

/-- Chunk-count bound for the terminal loop: at most
`ceil((tokenCount - i) / step)` windows, for any fuel, when the step is
positive. -/
theorem windowGo_length_le {ids : List Nat} {cs step : Nat} (hstep : 0 < step) :
    ∀ (fuel i : Nat), (windowGo ids cs step fuel i).length ≤ (ids.length - i + step - 1) / step := by
  intro fuel
  induction fuel with
  | zero => intro i; simp [windowGo]
  | succ fuel ih =>
    intro i
    simp only [windowGo]
    split
    · rename_i hi
      have key : 1 + (ids.length - (i + step) + step - 1) / step ≤
          (ids.length - i + step - 1) / step := by
        set n := ids.length - i with hn
        have hn1 : 1 ≤ n := by omega
        have hsub : ids.length - (i + step) = n - step := by omega
        rw [hsub]
        rcases Nat.le_total n step with hns | hns
        · have h0 : n - step = 0 := by omega
          rw [h0]
          have : (0 + step - 1) / step = 0 := Nat.div_eq_of_lt (by omega)
          rw [this]
          have : step ≤ n + step - 1 := by omega
          have := (Nat.one_le_div_iff hstep).mpr this
          omega
        · have h1 : n - step + step - 1 = n - 1 := by omega
          have h2 : n + step - 1 = (n - 1) + step := by omega
          rw [h1, h2, Nat.add_div_right _ hstep]
          omega
      split
      · calc ((windowGo ids cs step fuel (i + step)).length + 1)
            ≤ (ids.length - (i + step) + step - 1) / step + 1 :=
              Nat.add_le_add_right (ih (i + step)) 1
          _ ≤ (ids.length - i + step - 1) / step := by omega
      · exact le_trans (ih (i + step)) (by omega)
    · simp

/-- Invariant proof for the accumulation loop: if every chunk the finer
recursion produces is within the token budget, the accumulated token
counter dominates the true token count of the accumulated chunk, and the
counter stays within the budget, then every chunk the loop emits is within
the budget.  Requires the tokenizer to be subadditive over concatenation
and to produce no tokens for the empty string. -/
theorem splitLoop_token_bound (tok : Tokenizer) (opts : TextSplitterOptions) (sep : JStr)
    (recur : JStr → List JStr)
    (hsub : ∀ a b, (tok.encode (a ++ b)).length ≤ (tok.encode a).length + (tok.encode b).length)
    (hempty : tok.encode [] = [])
    (hrec : ∀ t c, c ∈ recur t → (tok.encode c).length ≤ opts.chunkSize) :
    ∀ (splits : List JStr) (isFirst : Bool) (cc : JStr) (ccT : Nat) (fc : List JStr),
      (∀ c ∈ fc, (tok.encode c).length ≤ opts.chunkSize) →
      (tok.encode cc).length ≤ ccT → ccT ≤ opts.chunkSize →
      ∀ c ∈ splitLoop tok opts sep recur splits isFirst cc ccT fc,
        (tok.encode c).length ≤ opts.chunkSize := by
  intro splits
  induction splits with
  | nil =>
    intro isFirst cc ccT fc hfc hcc hccT c hc
    simp only [splitLoop] at hc
    split at hc
    · rcases List.mem_append.mp hc with h | h
      · exact hfc c h
      · rcases List.mem_singleton.mp h with rfl
        exact le_trans hcc hccT
    · exact hfc c hc
  | cons s ss ih =>
    intro isFirst cc ccT fc hfc hcc hccT c hc
    simp only [splitLoop] at hc
    -- the first split is on the `i > 0` separator re-attachment; the two
    -- resulting cases differ only in which segment text is in play
    split at hc
    all_goals
      split at hc
      · -- oversized split: recurse, currentChunk silently reset
        refine ih false [] 0 _ ?_ (by simp [hempty]) (Nat.zero_le _) c hc
        intro d hd
        rcases List.mem_append.mp hd with h | h
        · exact hfc d h
        · exact hrec _ d h
      · split at hc
        · -- split fits: accumulate
          rename_i hfit
          refine ih false _ _ fc hfc ?_ hfit c hc
          exact le_trans (hsub cc _) (Nat.add_le_add hcc (le_refl _))
        · -- current chunk closed; new chunk seeded with overlap
          have hclosed : ∀ d ∈ (if 0 < (trimJs cc).length then fc ++ [cc] else fc),
              (tok.encode d).length ≤ opts.chunkSize := by
            intro d hd
            split at hd
            · rcases List.mem_append.mp hd with h | h
              · exact hfc d h
              · rcases List.mem_singleton.mp h with rfl
                exact le_trans hcc hccT
            · exact hfc d hd
          split at hc
          · -- overlap + split still oversized: recurse on the split
            refine ih false [] 0 _ ?_ (by simp [hempty]) (Nat.zero_le _) c hc
            intro d hd
            rcases List.mem_append.mp hd with h | h
            · exact hclosed d h
            · exact hrec _ d h
          · -- keep the seeded chunk; its token count was just measured exactly
            rename_i hsmall
            exact ih false _ _ _ hclosed (le_refl _) (Nat.le_of_not_lt hsmall) c hc

/-- Every chunk `_splitTextWithTokenizer` returns is within the token
budget, for any tokenizer that is subadditive over concatenation, encodes
the empty string to no tokens, and never inflates a decoded token window
beyond its id count. -/
theorem splitTextSeps_token_bound (tok : Tokenizer) (opts : TextSplitterOptions)
    (hsub : ∀ a b, (tok.encode (a ++ b)).length ≤ (tok.encode a).length + (tok.encode b).length)
    (hempty : tok.encode [] = [])
    (hdec : ∀ ids, (tok.encode (tok.decode ids)).length ≤ ids.length) :
    ∀ (seps : List JStr) (text : JStr) (c : JStr),
      c ∈ splitTextSeps tok opts seps text → (tok.encode c).length ≤ opts.chunkSize := by
  intro seps
  induction seps with
  | nil => intro text c hc; exact absurd hc (List.not_mem_nil c)
  | cons sep rest ih =>
    intro text c hc
    simp only [splitTextSeps] at hc
    split at hc
    · split at hc
      · exact absurd hc (List.not_mem_nil c)
      · rcases List.mem_map.mp hc with ⟨w, hw, rfl⟩
        exact le_trans (hdec w) (windowGo_mem_length hw)
    · exact splitLoop_token_bound tok opts sep _ hsub hempty
        (fun t d hd => ih t d hd) _ true [] 0 [] (by simp) (by simp [hempty]) (Nat.zero_le _) c hc

/-- The accumulation loop only ever emits chunks that pass the
`trim().length > 0` guard or that come out of the finer recursion. -/
theorem splitLoop_ws_guard (tok : Tokenizer) (opts : TextSplitterOptions) (sep : JStr)
    (recur : JStr → List JStr) (P : JStr → Prop)
    (htrim : ∀ c, 0 < (trimJs c).length → P c)
    (hrec : ∀ t c, c ∈ recur t → P c) :
    ∀ (splits : List JStr) (isFirst : Bool) (cc : JStr) (ccT : Nat) (fc : List JStr),
      (∀ c ∈ fc, P c) →
      ∀ c ∈ splitLoop tok opts sep recur splits isFirst cc ccT fc, P c := by
  intro splits
  induction splits with
  | nil =>
    intro isFirst cc ccT fc hfc c hc
    simp only [splitLoop] at hc
    split at hc
    · rename_i hg
      rcases List.mem_append.mp hc with h | h
      · exact hfc c h
      · rcases List.mem_singleton.mp h with rfl
        exact htrim c hg
    · exact hfc c hc
  | cons s ss ih =>
    intro isFirst cc ccT fc hfc c hc
    simp only [splitLoop] at hc
    split at hc
    all_goals
      split at hc
      · refine ih false [] 0 _ ?_ c hc
        intro d hd
        rcases List.mem_append.mp hd with h | h
        · exact hfc d h
        · exact hrec _ d h
      · split at hc
        · exact ih false _ _ fc hfc c hc
        · have hclosed : ∀ d ∈ (if 0 < (trimJs cc).length then fc ++ [cc] else fc), P d := by
            intro d hd
            split at hd
            · rename_i hg
              rcases List.mem_append.mp hd with h | h
              · exact hfc d h
              · rcases List.mem_singleton.mp h with rfl
                exact htrim d hg
            · exact hfc d hd
          split at hc
          · refine ih false [] 0 _ ?_ c hc
            intro d hd
            rcases List.mem_append.mp hd with h | h
            · exact hclosed d h
            · exact hrec _ d h
          · exact ih false _ _ _ hclosed c hc

/-- Every chunk the splitter returns either has non-whitespace content
(it passed a `trim().length > 0` guard) or is the decode of a token window
of at most `chunkSize` ids (the terminal case pushes those unguarded). -/
theorem splitTextSeps_ws (tok : Tokenizer) (opts : TextSplitterOptions) :
    ∀ (seps : List JStr) (text : JStr) (c : JStr), c ∈ splitTextSeps tok opts seps text →
      0 < (trimJs c).length ∨
        ∃ ids, ids.length ≤ opts.chunkSize ∧ c = tok.decode ids := by
  intro seps
  induction seps with
  | nil => intro text c hc; exact absurd hc (List.not_mem_nil c)
  | cons sep rest ih =>
    intro text c hc
    simp only [splitTextSeps] at hc
    split at hc
    · split at hc
      · exact absurd hc (List.not_mem_nil c)
      · rcases List.mem_map.mp hc with ⟨w, hw, rfl⟩
        exact Or.inr ⟨w, windowGo_mem_length hw, rfl⟩
    · exact splitLoop_ws_guard tok opts sep _ _ (fun d hd => Or.inl hd)
        (fun t d hd => ih t d hd) _ true [] 0 [] (by simp) c hc

/-- Splitting the empty string yields the single empty segment
(JS `"".split(sep) === [""]`). -/
theorem splitJs_nil (sep : JStr) : splitJs [] sep = [[]] := rfl

/-- The splitter maps the empty document to no chunks, for every
tokenizer: whichever branch the (tokenizer-dependent) token counts select,
the accumulated chunk stays empty and is never emitted. -/
theorem splitTextSeps_empty_text (tok : Tokenizer) (opts : TextSplitterOptions) :
    ∀ (seps : List JStr), splitTextSeps tok opts seps [] = [] := by
  intro seps
  induction seps with
  | nil => rfl
  | cons sep rest ih =>
    simp only [splitTextSeps]
    split
    · simp
    · rw [splitJs_nil]
      simp only [splitLoop]
      split
      · -- the `i === 0` branch of the separator re-attachment
        split
        · -- encode [] counts above the budget: recurse on the empty segment
          rw [ih]
          simp [splitLoop, trimJs]
        · split
          · -- accumulate the empty segment; nothing to emit at the end
            simp [splitLoop, trimJs]
          · -- 0 + splitTokens ≤ chunkSize fails with splitTokens ≤ chunkSize: impossible
            omega
      · -- `isFirst` is literally `true` here, so this branch is vacuous
        simp_all

/-- `charTok` token counts add up over concatenation. -/
theorem charTok_subadd (a b : JStr) :
    (charTok.encode (a ++ b)).length ≤ (charTok.encode a).length + (charTok.encode b).length := by
  simp [charTok]

/-- Decoding then re-encoding a token window under `charTok` keeps its id
count. -/
theorem charTok_dec (ids : List Nat) :
    (charTok.encode (charTok.decode ids)).length ≤ ids.length := by
  simp [charTok]

/-! ## Claim theorems -/

/-- C1: the claim says chunking never silently discards non-whitespace
content, but `_splitTextWithTokenizer` resets `currentChunk` without
emitting it when the next segment is oversized and triggers the
finer-separator recursion.  Evaluated at `lossDoc` (`"A\n\n"` followed by
a 451-token paragraph of `B`s, under the one-token-per-character
tokenizer): the document contains one `'A'`, yet no chunk of the output
contains any `'A'` — the short first paragraph is dropped. -/
theorem chunkText_drops_accumulated_content :
    lossDoc.count 'A' = 1 ∧
      ((chunkTextModel charTok lossDoc).foldl (· ++ ·) []).count 'A' = 0 := by
  decide

/-- C9 counterexample: `wsDoc` (451 tab characters) is whitespace-only,
yet `chunkText` returns a nonempty chunk list, and every returned chunk
is entirely whitespace — the terminal token-window case pushes decoded
windows without the `trim()` guard.  This refutes both halves of the
claim (whitespace-only input yields zero chunks; no all-whitespace chunk
is ever emitted). -/
theorem whitespace_input_emits_whitespace_chunks :
    trimJs wsDoc = [] ∧ chunkTextModel charTok wsDoc ≠ [] ∧
      (chunkTextModel charTok wsDoc).all (fun c => (trimJs c).isEmpty) = true := by
  decide

/-- C9 amended: the empty document always yields zero chunks, and every
emitted chunk either has non-whitespace content (it passed a
`trim().length > 0` guard) or was produced by the terminal token-window
case as the decode of at most `chunkSize = 450` token ids — it is that
terminal case that can emit whitespace-only chunks, as
`whitespace_input_emits_whitespace_chunks` shows. -/
theorem chunkText_whitespace_amended :
    (∀ tok : Tokenizer, chunkTextModel tok [] = []) ∧
    (∀ (tok : Tokenizer) (d c : JStr), c ∈ chunkTextModel tok d →
      0 < (trimJs c).length ∨ ∃ ids, ids.length ≤ 450 ∧ c = tok.decode ids) :=
  ⟨fun tok => splitTextSeps_empty_text tok ⟨450, 50⟩ defaultSeparators,
   fun tok d c hc => splitTextSeps_ws tok ⟨450, 50⟩ defaultSeparators d c hc⟩

/-- Witness for `chunkText_whitespace_amended` at a concrete input. -/
theorem chunkText_whitespace_amended_witness :
    0 < (trimJs "hi".toList).length ∨
      ∃ ids, ids.length ≤ 450 ∧ "hi".toList = charTok.decode ids :=
  chunkText_whitespace_amended.2 charTok "hi".toList "hi".toList (by decide)

/-- C2: every chunk `chunkText` returns stays within the 450-token budget,
for any tokenizer whose token counts are subadditive over concatenation,
that encodes the empty string to no tokens, and that never inflates a
decoded token window beyond its id count (all three hold for the
one-token-per-character tokenizer, and are how the chunker's bookkeeping
assumes `encode` behaves). -/
theorem chunkText_token_bound (tok : Tokenizer)
    (hsub : ∀ a b, (tok.encode (a ++ b)).length ≤ (tok.encode a).length + (tok.encode b).length)
    (hempty : tok.encode [] = [])
    (hdec : ∀ ids, (tok.encode (tok.decode ids)).length ≤ ids.length)
    (content c : JStr) (hc : c ∈ chunkTextModel tok content) :
    (tok.encode c).length ≤ 450 :=
  splitTextSeps_token_bound tok ⟨450, 50⟩ hsub hempty hdec defaultSeparators content c hc

/-- Witness for `chunkText_token_bound` with the character tokenizer. -/
theorem chunkText_token_bound_witness :
    (charTok.encode "hello".toList).length ≤ 450 :=
  chunkText_token_bound charTok charTok_subadd rfl charTok_dec
    "hello".toList "hello".toList (by decide)

/-- C7 counterexample: the claim says the token-window loop steps by
`chunkSize - chunkOverlap` with a minimum step of 1, for every
configuration.  The source computes `i += chunkSize - chunkOverlap` with
no minimum: at `chunkSize = chunkOverlap = 450` the increment is `0`, not
at least `1`, and the loop index stays at `0` forever (`0` is a fixed
point), so on any nonempty token sequence the JS loop never terminates. -/
theorem windowStep_no_minimum_step :
    windowStep 450 450 = 0 ∧ ¬ 1 ≤ windowStep 450 450 ∧ 0 + windowStep 450 450 = 0 := by
  decide

/-- C7 amended: when `chunkOverlap < chunkSize` (as in the deployed
450/50 configuration) the terminal loop makes progress and emits at most
`ceil(tokenCount / (chunkSize - chunkOverlap))` chunks. -/
theorem windowChunks_count_bound (ids : List Nat) (cs co : Nat) (h : co < cs) :
    (windowChunks ids cs co).length ≤ (ids.length + (cs - co) - 1) / (cs - co) := by
  have hb := @windowGo_length_le ids cs (cs - co) (by omega) ids.length 0
  simpa [windowChunks] using hb

/-- Witness for `windowChunks_count_bound` at a concrete input. -/
theorem windowChunks_count_bound_witness :
    (windowChunks [7, 8, 9] 2 1).length ≤ ([7, 8, 9].length + (2 - 1) - 1) / (2 - 1) :=
  windowChunks_count_bound [7, 8, 9] 2 1 (by decide)

/-- C3: if any chunk of the batch fails to embed, `updateFileContent`
raises an error (`InternalError`, wrapping the embedding failure) and
executes no store mutation at all — the delete-then-insert of the stored
chunk set only runs after `Promise.all` over the embeddings resolves, so
the previously stored chunks for the `(project, file)` are unchanged. -/
theorem updateFileContent_aborts_on_embedding_failure
    (chunkFn : JStr → List JStr) (embed : JStr → Except String (List Int))
    (st : Store) (pid fn : String) (content : JStr) (c : JStr) (e : String)
    (hpid : pid ∈ st.projects) (hfn : fn ≠ "") (hcontent : content ≠ [])
    (hmem : c ∈ chunkFn content) (hfail : embed c = .error e) :
    (updateFileContent chunkFn embed st pid fn content).1 = [] ∧
      (∃ m, (updateFileContent chunkFn embed st pid fn content).2 =
        some ⟨.internalError, m⟩) ∧
      applyOps st (updateFileContent chunkFn embed st pid fn content).1 = st := by
  have hch : chunkFn content ≠ [] := fun h => absurd (h ▸ hmem) (List.not_mem_nil c)
  rcases mapEmbed_error_of_mem hmem hfail with ⟨e', he'⟩
  simp only [updateFileContent]
  rw [if_neg (fun h => h hpid), if_neg (not_or.mpr ⟨hfn, hcontent⟩), if_neg hch, he']
  exact ⟨rfl, ⟨_, rfl⟩, rfl⟩

/-- Witness for `updateFileContent_aborts_on_embedding_failure`: a
two-chunk batch whose second chunk fails to embed against a store holding
one old chunk. -/
theorem updateFileContent_aborts_witness :
    (updateFileContent (fun _ => [['a'], ['b']])
        (fun s => if s = ['b'] then Except.error "boom" else Except.ok [1])
        ⟨["p"], [⟨"p", "file.md", 0, ['o'], [1]⟩]⟩ "p" "file.md" ['x']).1 = [] ∧
      (∃ m, (updateFileContent (fun _ => [['a'], ['b']])
        (fun s => if s = ['b'] then Except.error "boom" else Except.ok [1])
        ⟨["p"], [⟨"p", "file.md", 0, ['o'], [1]⟩]⟩ "p" "file.md" ['x']).2 =
          some ⟨.internalError, m⟩) ∧
      applyOps ⟨["p"], [⟨"p", "file.md", 0, ['o'], [1]⟩]⟩
          (updateFileContent (fun _ => [['a'], ['b']])
            (fun s => if s = ['b'] then Except.error "boom" else Except.ok [1])
            ⟨["p"], [⟨"p", "file.md", 0, ['o'], [1]⟩]⟩ "p" "file.md" ['x']).1 =
        ⟨["p"], [⟨"p", "file.md", 0, ['o'], [1]⟩]⟩ :=
  updateFileContent_aborts_on_embedding_failure _ _ _ _ _ _ ['b'] "boom"
    (by decide) (by decide) (by decide) (by decide) (by rfl)

/-- C10: on an existing project, with nonempty file name and content, when
chunking yields zero chunks the operation succeeds (no error) and its only
store effect is deleting the previously stored chunks of that
`(project, file)`. -/
theorem updateFileContent_zero_chunks_clears_file
    (chunkFn : JStr → List JStr) (embed : JStr → Except String (List Int))
    (st : Store) (pid fn : String) (content : JStr)
    (hpid : pid ∈ st.projects) (hfn : fn ≠ "") (hcontent : content ≠ [])
    (hzero : chunkFn content = []) :
    updateFileContent chunkFn embed st pid fn content =
        ([.deleteFileChunks pid fn], none) ∧
      (applyOps st (updateFileContent chunkFn embed st pid fn content).1).chunks =
        st.chunks.filter fun c => !(c.projectId == pid && c.fileName == fn) := by
  have h1 : updateFileContent chunkFn embed st pid fn content =
      ([.deleteFileChunks pid fn], none) := by
    simp only [updateFileContent]
    rw [if_neg (fun h => h hpid), if_neg (not_or.mpr ⟨hfn, hcontent⟩), if_pos hzero]
  exact ⟨h1, by rw [h1]; rfl⟩

/-- Witness for `updateFileContent_zero_chunks_clears_file`: the real
chunker on the whitespace-only content `" "` yields zero chunks, and the
update clears the file's stored chunk while leaving the other file
alone. -/
theorem updateFileContent_zero_chunks_witness :
    updateFileContent (chunkTextModel charTok) (fun _ => Except.ok [])
        ⟨["p"], [⟨"p", "file.md", 0, ['o'], [1]⟩, ⟨"p", "other.md", 0, ['k'], [2]⟩]⟩
        "p" "file.md" " ".toList =
        ([.deleteFileChunks "p" "file.md"], none) ∧
      (applyOps ⟨["p"], [⟨"p", "file.md", 0, ['o'], [1]⟩, ⟨"p", "other.md", 0, ['k'], [2]⟩]⟩
          (updateFileContent (chunkTextModel charTok) (fun _ => Except.ok [])
            ⟨["p"], [⟨"p", "file.md", 0, ['o'], [1]⟩, ⟨"p", "other.md", 0, ['k'], [2]⟩]⟩
            "p" "file.md" " ".toList).1).chunks =
        List.filter (fun c => !(c.projectId == "p" && c.fileName == "file.md"))
          [⟨"p", "file.md", 0, ['o'], [1]⟩, ⟨"p", "other.md", 0, ['k'], [2]⟩] :=
  updateFileContent_zero_chunks_clears_file (chunkTextModel charTok) _ _ _ _ _
    (by decide) (by decide) (by decide) (by decide)

/-- C6: for an existing project, `getFileContent` returns the stored
chunks' texts concatenated in ascending `chunkIndex` order with no added
separator; the fetched list is a permutation of exactly the
`(project, file)` chunks, sorted by index.  When zero chunks exist it
signals not-found with the dedicated "No content found" `InvalidParams`
error (the store-failure path instead surfaces `InternalError`, so the
two conditions are distinguished). -/
theorem getFileContent_reconstructs_in_index_order (st : Store) (pid fn : String)
    (hpid : pid ∈ st.projects) :
    (getMemoryBankChunksByFile st pid fn).Pairwise
        (fun a b => a.chunkIndex ≤ b.chunkIndex) ∧
      (getMemoryBankChunksByFile st pid fn).Perm
        (st.chunks.filter fun c => c.projectId == pid && c.fileName == fn) ∧
      (getMemoryBankChunksByFile st pid fn ≠ [] →
        getFileContent st pid fn =
          .ok (((getMemoryBankChunksByFile st pid fn).map (fun c => c.text)).foldl
            (· ++ ·) [])) ∧
      (getMemoryBankChunksByFile st pid fn = [] →
        getFileContent st pid fn = .error ⟨.invalidParams,
          "No content found for file '" ++ fn ++ "' in project '" ++ pid ++ "'."⟩) := by
  refine ⟨?_, ?_, ?_, ?_⟩
  · haveI : IsTotal StoredChunk (fun a b => a.chunkIndex ≤ b.chunkIndex) :=
      ⟨fun a b => Nat.le_total _ _⟩
    haveI : IsTrans StoredChunk (fun a b => a.chunkIndex ≤ b.chunkIndex) :=
      ⟨fun _ _ _ => Nat.le_trans⟩
    exact List.sorted_insertionSort _ _
  · exact List.perm_insertionSort _ _
  · intro hne
    simp only [getFileContent]
    rw [if_neg (fun h => h hpid), if_neg hne]
  · intro he
    simp only [getFileContent]
    rw [if_neg (fun h => h hpid), if_pos he]

/-- Witness for `getFileContent_reconstructs_in_index_order`: two chunks
stored out of index order (plus a chunk of another file) come back as
`"hello world"`. -/
theorem getFileContent_witness :
    ((getMemoryBankChunksByFile
          ⟨["p"], [⟨"p", "f.md", 1, "world".toList, []⟩, ⟨"p", "f.md", 0, "hello ".toList, []⟩,
            ⟨"p", "g.md", 0, "x".toList, []⟩]⟩ "p" "f.md").Pairwise
        (fun a b => a.chunkIndex ≤ b.chunkIndex) ∧
      (getMemoryBankChunksByFile
          ⟨["p"], [⟨"p", "f.md", 1, "world".toList, []⟩, ⟨"p", "f.md", 0, "hello ".toList, []⟩,
            ⟨"p", "g.md", 0, "x".toList, []⟩]⟩ "p" "f.md").Perm
        (List.filter (fun c => c.projectId == "p" && c.fileName == "f.md")
          [⟨"p", "f.md", 1, "world".toList, []⟩, ⟨"p", "f.md", 0, "hello ".toList, []⟩,
            ⟨"p", "g.md", 0, "x".toList, []⟩]) ∧
      (getMemoryBankChunksByFile
          ⟨["p"], [⟨"p", "f.md", 1, "world".toList, []⟩, ⟨"p", "f.md", 0, "hello ".toList, []⟩,
            ⟨"p", "g.md", 0, "x".toList, []⟩]⟩ "p" "f.md" ≠ [] →
        getFileContent
          ⟨["p"], [⟨"p", "f.md", 1, "world".toList, []⟩, ⟨"p", "f.md", 0, "hello ".toList, []⟩,
            ⟨"p", "g.md", 0, "x".toList, []⟩]⟩ "p" "f.md" =
          .ok (((getMemoryBankChunksByFile
            ⟨["p"], [⟨"p", "f.md", 1, "world".toList, []⟩, ⟨"p", "f.md", 0, "hello ".toList, []⟩,
              ⟨"p", "g.md", 0, "x".toList, []⟩]⟩ "p" "f.md").map (fun c => c.text)).foldl
            (· ++ ·) [])) ∧
      (getMemoryBankChunksByFile
          ⟨["p"], [⟨"p", "f.md", 1, "world".toList, []⟩, ⟨"p", "f.md", 0, "hello ".toList, []⟩,
            ⟨"p", "g.md", 0, "x".toList, []⟩]⟩ "p" "f.md" = [] →
        getFileContent
          ⟨["p"], [⟨"p", "f.md", 1, "world".toList, []⟩, ⟨"p", "f.md", 0, "hello ".toList, []⟩,
            ⟨"p", "g.md", 0, "x".toList, []⟩]⟩ "p" "f.md" = .error ⟨.invalidParams,
          "No content found for file '" ++ "f.md" ++ "' in project '" ++ "p" ++ "'."⟩)) ∧
      (getFileContent
          ⟨["p"], [⟨"p", "f.md", 1, "world".toList, []⟩, ⟨"p", "f.md", 0, "hello ".toList, []⟩,
            ⟨"p", "g.md", 0, "x".toList, []⟩]⟩ "p" "f.md").toOption =
        some "hello world".toList :=
  ⟨getFileContent_reconstructs_in_index_order _ "p" "f.md" (by decide), by decide⟩

/-- C8: (a) a search call whose arguments the `TOOL_PARAMS_SEARCH` schema
rejects (empty-after-trim query, unsupported mode, out-of-range `topK`)
fails with an invalid-argument error and an empty external-operation
trace — no store or embedder operation runs; (b) a schema-valid call
naming an unknown project performs only the project-existence lookup and
fails with the project-not-found error (raised as `InvalidParams` with a
"not found" message) before any chunk query or query embedding runs. -/
theorem searchTool_rejects_before_external_ops :
    (∀ (st : Store) (dist : StoredChunk → ℚ) (pid : String) (query : JStr)
        (mode : String) (topK : Int) (ff : Option (List String)),
      (trimJs query = [] ∨ (mode ≠ "semantic" ∧ mode ≠ "keyword") ∨ topK < 1 ∨ 20 < topK) →
      searchTool st dist pid query mode topK ff =
        ([], .error ⟨.invalidParams, "Invalid arguments."⟩)) ∧
    (∀ (st : Store) (dist : StoredChunk → ℚ) (pid : String) (query : JStr)
        (mode : String) (topK : Int) (ff : Option (List String)),
      validSearchArgs query mode topK = true → pid ∉ st.projects →
      searchTool st dist pid query mode topK ff =
        ([.projectLookup pid], .error ⟨.invalidParams,
          "Project with ID '" ++ pid ++ "' not found."⟩)) := by
  constructor
  · intro st dist pid query mode topK ff h
    have hv : ¬ validSearchArgs query mode topK = true := by
      simp only [validSearchArgs, Bool.and_eq_true, Bool.not_eq_true, Bool.or_eq_true,
        beq_iff_eq, decide_eq_true_eq, Bool.not_eq_true']
      rintro ⟨⟨⟨hq, hm⟩, h1⟩, h2⟩
      rcases h with h | ⟨hm1, hm2⟩ | h | h
      · rw [h] at hq; simp at hq
      · rcases hm with hm | hm
        · exact hm1 hm
        · exact hm2 hm
      · omega
      · omega
    rw [Bool.not_eq_true] at hv
    simp [searchTool, hv]
  · intro st dist pid query mode topK ff hv hpid
    simp only [searchTool]
    rw [if_pos hv]
    simp only [searchService]
    rw [if_pos hpid]

/-- Witness for `searchTool_rejects_before_external_ops`: a `topK = 0`
call is rejected with no external operation, and a valid call against an
empty project list stops at the project lookup. -/
theorem searchTool_rejects_witness :
    searchTool ⟨[], []⟩ (fun _ => 0) "p" "q".toList "semantic" 0 none =
        ([], .error ⟨.invalidParams, "Invalid arguments."⟩) ∧
      searchTool ⟨[], []⟩ (fun _ => 0) "p" "q".toList "semantic" 5 none =
        ([.projectLookup "p"], .error ⟨.invalidParams,
          "Project with ID '" ++ "p" ++ "' not found."⟩) :=
  ⟨searchTool_rejects_before_external_ops.1 _ _ _ _ _ _ _ (by right; right; left; decide),
   searchTool_rejects_before_external_ops.2 _ _ _ _ _ _ _ (by decide) (by decide)⟩

/-- C5: every keyword-mode result is drawn from the 100-chunk candidate
pool, contains the query as a case-insensitive substring, carries
`score = null`, and the result list is ordered by `(fileName ascending,
chunkIndex ascending)` and truncated to at most `topK`; the search service
passes the keyword result list through unchanged. -/
theorem keywordSearch_filter_order_bound :
    (∀ (st : Store) (pid : String) (query : JStr) (topK : Nat) (ff : Option (List String)),
      (∀ r ∈ keywordSearchChunks st pid query topK ff, r.score = none) ∧
      (∀ r ∈ keywordSearchChunks st pid query topK ff,
        containsInsensitive r.text query = true) ∧
      (∀ r ∈ keywordSearchChunks st pid query topK ff,
        ∃ c ∈ (st.chunks.filter fun c =>
            c.projectId == pid && matchesFilter ff c.fileName).take 100,
          r.text = c.text ∧ r.fileName = c.fileName ∧ r.chunkIndex = c.chunkIndex) ∧
      (keywordSearchChunks st pid query topK ff).Pairwise fileIdxLe ∧
      (keywordSearchChunks st pid query topK ff).length ≤ topK) ∧
    (∀ (st : Store) (dist : StoredChunk → ℚ) (pid : String) (query : JStr) (topK : Nat)
        (ff : Option (List String)), pid ∈ st.projects → query ≠ [] → topK ≠ 0 →
      (searchService st dist pid query "keyword" topK ff).2 =
        .ok (keywordSearchChunks st pid query topK ff)) := by
  constructor
  · intro st pid query topK ff
    have hmem : ∀ r ∈ keywordSearchChunks st pid query topK ff,
        ∃ c, c ∈ (st.chunks.filter fun c =>
            c.projectId == pid && matchesFilter ff c.fileName).take 100 ∧
          containsInsensitive c.text query = true ∧
          r = ⟨c.text, c.fileName, c.chunkIndex, none⟩ := by
      intro r hr
      simp only [keywordSearchChunks] at hr
      have hr1 := List.mem_of_mem_take hr
      have hr2 := (List.perm_insertionSort fileIdxLe _).mem_iff.mp hr1
      rcases List.mem_map.mp hr2 with ⟨c, hc, rfl⟩
      rcases List.mem_filter.mp hc with ⟨hc1, hc2⟩
      exact ⟨c, hc1, hc2, rfl⟩
    refine ⟨?_, ?_, ?_, ?_, ?_⟩
    · intro r hr
      rcases hmem r hr with ⟨c, _, _, rfl⟩
      rfl
    · intro r hr
      rcases hmem r hr with ⟨c, _, hq, rfl⟩
      exact hq
    · intro r hr
      rcases hmem r hr with ⟨c, hc, _, rfl⟩
      exact ⟨c, hc, rfl, rfl, rfl⟩
    · haveI : IsTotal SearchResult fileIdxLe := ⟨fileIdxLe_total⟩
      haveI : IsTrans SearchResult fileIdxLe := ⟨fun _ _ _ => fileIdxLe_trans⟩
      exact (List.sorted_insertionSort fileIdxLe _).sublist (List.take_sublist _ _)
    · exact List.length_take_le _ _
  · intro st dist pid query topK ff hpid hq hk
    simp only [searchService]
    rw [if_neg (fun h => h hpid),
      if_neg (not_or.mpr ⟨hq, not_or.mpr ⟨by decide, hk⟩⟩),
      if_neg (by decide : ¬ ("keyword" : String) = "semantic")]
    simp

/-- Witness for `keywordSearch_filter_order_bound` on the spec's example:
query `"hello"` over `exKwStore` returns `fileA.md#0` then `fileB.md#0`,
both with `score = null`. -/
theorem keywordSearch_filter_order_bound_witness :
    ((keywordSearchChunks exKwStore "p" "hello".toList 5 none).Pairwise fileIdxLe ∧
      (keywordSearchChunks exKwStore "p" "hello".toList 5 none).length ≤ 5) ∧
      keywordSearchChunks exKwStore "p" "hello".toList 5 none =
        [⟨"hello world".toList, "fileA.md", 0, none⟩,
          ⟨"hello".toList, "fileB.md", 0, none⟩] :=
  ⟨⟨((keywordSearch_filter_order_bound.1 exKwStore "p" "hello".toList 5 none).2.2.2).1,
    ((keywordSearch_filter_order_bound.1 exKwStore "p" "hello".toList 5 none).2.2.2).2⟩,
    by decide⟩

/-- C4: a semantic-mode search returns a result list sorted by ascending
`score`, and every result's `score` is exactly the distance the chunk
store reported for that chunk (no re-normalization). -/
theorem semanticSearch_ordered_by_distance (st : Store) (dist : StoredChunk → ℚ)
    (pid : String) (query : JStr) (topK : Nat) (ff : Option (List String))
    (hpid : pid ∈ st.projects) (hq : query ≠ []) (hk : topK ≠ 0) :
    ∃ res, (searchService st dist pid query "semantic" topK ff).2 = .ok res ∧
      res.Pairwise scoreLe ∧
      ∀ r ∈ res, ∃ c ∈ st.chunks, c.projectId = pid ∧ r.score = some (dist c) ∧
        r.text = c.text ∧ r.fileName = c.fileName ∧ r.chunkIndex = c.chunkIndex := by
  refine ⟨List.insertionSort scoreLe (semanticSearchChunks st dist pid topK ff), ?_, ?_, ?_⟩
  · simp only [searchService]
    rw [if_neg (fun h => h hpid),
      if_neg (not_or.mpr ⟨hq, not_or.mpr ⟨by decide, hk⟩⟩)]
    simp
  · haveI : IsTotal SearchResult scoreLe := ⟨scoreLe_total⟩
    haveI : IsTrans SearchResult scoreLe := ⟨fun _ _ _ => scoreLe_trans⟩
    exact List.sorted_insertionSort scoreLe _
  · intro r hr
    have hr1 := (List.perm_insertionSort scoreLe _).mem_iff.mp hr
    simp only [semanticSearchChunks] at hr1
    rcases List.mem_map.mp hr1 with ⟨c, hcnear, rfl⟩
    have hc1 := List.mem_of_mem_take hcnear
    have hc2 := (List.perm_insertionSort _ _).mem_iff.mp hc1
    rcases List.mem_filter.mp hc2 with ⟨hc3, hc4⟩
    have hc5 : c.projectId = pid ∧ matchesFilter ff c.fileName = true := by
      simpa using hc4
    exact ⟨c, hc3, hc5.1, rfl, rfl, rfl, rfl⟩

/-- Witness for `semanticSearch_ordered_by_distance` on the spec's
example: `topK = 3` over five chunks with distances
`[0.1, 0.9, 0.3, 0.05, 0.5]` comes back with scores
`[0.05, 0.1, 0.3]` (`mkRat 1 20`, `mkRat 1 10`, `mkRat 3 10`). -/
theorem semanticSearch_ordered_witness :
    (∃ res, (searchService exSemStore exDist "p" "q".toList "semantic" 3 none).2 = .ok res ∧
      res.Pairwise scoreLe ∧
      ∀ r ∈ res, ∃ c ∈ exSemStore.chunks, c.projectId = "p" ∧ r.score = some (exDist c) ∧
        r.text = c.text ∧ r.fileName = c.fileName ∧ r.chunkIndex = c.chunkIndex) ∧
      ((searchService exSemStore exDist "p" "q".toList "semantic" 3 none).2.toOption.map
        fun l => l.map fun r => r.score) =
        some [some (mkRat 1 20), some (mkRat 1 10), some (mkRat 3 10)] :=
  ⟨semanticSearch_ordered_by_distance exSemStore exDist "p" "q".toList 3 none
      (by decide) (by decide) (by decide),
    by decide⟩

end MemoryBank
